import Mathlib

/-!
Shallow embedding of the gobuffet item-store core: the Price value type
(src/item/util/util.go, `Price.Set` / `Price.String`), the record-store
operations `Add`, `Del`, `Mod` (same file), and the storefront order
aggregation (`stoi` and the checkout loop of `handleRoot`).

Machine integers are modelled as `Int`/`Nat`; `strconv.Atoi` keeps its
explicit signed-64-bit range check because the Go code propagates that
error.  Filesystem and database effects are modelled by explicit state
passing over a `State` of rows and on-disk files, with a per-operation
schedule of booleans saying which fallible external call fails, so that
the partial-failure paths of the source are all reachable.
-/

namespace GoBuffet

/-- ASCII decimal digit test (48 = the code point of 0, 57 = of 9). -/
def isDigit (c : Char) : Bool := 48 ≤ c.toNat && c.toNat ≤ 57

/-- Numeric value of an ASCII digit character. -/
def digitVal (c : Char) : Nat := c.toNat - 48

/-- The ASCII digit character for a value below ten. -/
def digitChar : Nat → Char
  | 0 => '0'
  | 1 => '1'
  | 2 => '2'
  | 3 => '3'
  | 4 => '4'
  | 5 => '5'
  | 6 => '6'
  | 7 => '7'
  | 8 => '8'
  | 9 => '9'
  | _ => '*'

/-- Value of a digit string, accumulated the way `strconv` does. -/
def digitsToNat (l : List Char) : Nat :=
  l.foldl (fun acc c => 10 * acc + digitVal c) 0

/-- Little-endian decimal digits of `n`; the first argument is fuel
(structural recursion so that the kernel can evaluate it). -/
def toDigitsRevAux : Nat → Nat → List Char
  | 0, _ => []
  | _ + 1, 0 => []
  | fuel + 1, n + 1 => digitChar ((n + 1) % 10) :: toDigitsRevAux fuel ((n + 1) / 10)

/-- Little-endian decimal digits of a positive `n` (empty for zero). -/
def toDigitsRev (n : Nat) : List Char := toDigitsRevAux n n

/-- Decimal digit string of `n`, as `strconv.Itoa` renders a
non-negative value: no leading zeros, and a lone zero for 0. -/
def natDigits (n : Nat) : List Char :=
  if n = 0 then ['0'] else (toDigitsRev n).reverse

/-- Errors of the modelled `strconv.Atoi`. -/
inductive AtoiErr where
  | errSyn : AtoiErr
  | errRange : AtoiErr
deriving DecidableEq, Repr

/-- Model of Go `strconv.Atoi` (= `ParseInt(s, 10, 0)` on a 64-bit
platform): an optional sign followed by at least one digit, with a
signed 64-bit range check; Go accumulates with a cutoff test but the
resulting error condition is exactly "value out of range". -/
def atoi (s : String) : Except AtoiErr Int :=
  match s.data with
  | [] => .error .errSyn
  | c :: rest =>
    let neg : Bool := c == '-'
    let ds := if c == '-' || c == '+' then rest else c :: rest
    if ds.isEmpty || !(ds.all isDigit) then .error .errSyn
    else
      let v : Int := if neg then -(digitsToNat ds : Int) else (digitsToNat ds : Int)
      if v < -(2 ^ 63) ∨ 2 ^ 63 - 1 < v then .error .errRange else .ok v

/-- Split a character list at its first dot: the source regexp group 1
(all before the dot) and group 2 (the dot and everything after). -/
def splitAtDot : List Char → List Char × List Char
  | [] => ([], [])
  | c :: rest =>
    if c = '.' then ([], c :: rest)
    else
      let p := splitAtDot rest
      (c :: p.1, p.2)

/-- The integer-part alternative of `priceRE`: `[1-9][0-9]*|0`, i.e.
either a single digit, or a nonzero digit followed by digits. -/
def intPartOK : List Char → Bool
  | [] => false
  | c :: rest =>
    (isDigit c && rest.isEmpty) || ((49 ≤ c.toNat && c.toNat ≤ 57) && rest.all isDigit)

/-- The fractional-part alternative of `priceRE`: `(\.[0-9][0-9]?)?`,
matched against everything from the first dot on. -/
def fracOK : List Char → Bool
  | [] => true
  | c :: ds => c == '.' && (ds.length == 1 || ds.length == 2) && ds.all isDigit

/-- Errors of the modelled `Price.Set`: the literal
`errors.New("invalid price")`, or the `strconv.Atoi` error that `Set`
passes through unchanged (reachable only as a range error). -/
inductive PriceErr where
  | invalid : PriceErr
  | range : PriceErr
deriving DecidableEq, Repr

/-- Model of `(*Price).Set` (src/item/util/util.go lines 49-62): match
`^([1-9][0-9]*|0)(\.[0-9][0-9]?)?$`, drop the dot from group 2, pad the
fraction on the right to two digits, and `Atoi` the concatenation. -/
def priceSet (s : String) : Except PriceErr Int :=
  let m := splitAtDot s.data
  if intPartOK m.1 && fracOK m.2 then
    let subprice :=
      match m.2 with
      | '.' :: ds => ds
      | l => l
    let subprice := subprice ++ List.replicate (2 - subprice.length) '0'
    match atoi ⟨m.1 ++ subprice⟩ with
    | .error _ => .error .range
    | .ok n => .ok n
  else .error .invalid

/-- The digit layout of `(*Price).String` for the magnitude `n`: below
ten the source prepends "0.0", below one hundred "0.", and otherwise it
reinserts the dot before the last two digits. -/
def priceDigits (n : Nat) : List Char :=
  let s := natDigits n
  if n < 10 then '0' :: '.' :: '0' :: s
  else if n < 100 then '0' :: '.' :: s
  else s.take (s.length - 2) ++ '.' :: s.drop (s.length - 2)

/-- Model of `(*Price).String` (src/item/util/util.go lines 64-86):
take the absolute value, render its digits, and place the dot so that
exactly two fractional digits appear, re-attaching a minus sign. -/
def priceString (p : Int) : String :=
  if p < 0 then ⟨'-' :: priceDigits p.natAbs⟩ else ⟨priceDigits p.natAbs⟩

/-- Minor units contributed by a matched fractional part: a one-digit
fraction is right-padded with one zero, per the spec wording. -/
def fracVal : List Char → Nat
  | '.' :: [d] => 10 * digitVal d
  | '.' :: [d1, d2] => 10 * digitVal d1 + digitVal d2
  | _ => 0

/-- Earliest suffix of the input that matches `[1-9][0-9]*$`: a nonzero
digit followed by digits running to the end of the string. -/
def findTail : List Char → Option (List Char)
  | [] => none
  | c :: rest =>
    if (49 ≤ c.toNat && c.toNat ≤ 57) && rest.all isDigit then some (c :: rest)
    else findTail rest

/-- Model of `intRE.FindString` where `intRE` is the source regexp
`^0|[1-9][0-9]*$` (src/unnamed/part_002 line 87).  Go alternation
binds loosest, so the two alternatives are the anchored-left `^0` and
the anchored-right `[1-9][0-9]*$`; FindString returns the leftmost
match, preferring the first alternative, or "" when neither matches. -/
def intREFind (s : String) : String :=
  match s.data with
  | [] => ""
  | c :: rest =>
    if c = '0' then "0"
    else
      match findTail (c :: rest) with
      | some l => ⟨l⟩
      | none => ""

/-- Model of `stoi` (src/unnamed/part_002 lines 475-477):
`strconv.Atoi(intRE.FindString(s))`. -/
def stoi (s : String) : Except AtoiErr Int := atoi (intREFind s)

/-- A database row of the `items` table (columns id, name, descr,
price, img); `none` models SQL NULL. -/
structure Row where
  id : Int
  name : String
  descr : Option String
  price : Int
  img : Option String
deriving DecidableEq, Repr

/-- The observable state the record store manipulates: the rows of the
`items` table and the set of files present in the image directory. -/
structure State where
  rows : List Row
  files : List String
deriving DecidableEq, Repr

/-- Model of `util.ImgPath` (src/unnamed/part_001): `"img/" + base`. -/
def ImgPath (base : String) : String := "img/" ++ base

/-- Model of Go `path.Base`: empty input gives ".", trailing slashes
are dropped, the last path element is returned, all-slash gives "/". -/
def pathBase (p : String) : String :=
  if p = "" then "."
  else
    let l := p.data.reverse.dropWhile (fun c => c = '/')
    if l.isEmpty then "/"
    else ⟨(l.takeWhile (fun c => c ≠ '/')).reverse⟩

/-- Which of the two fallible filesystem steps of `copyImg` fails:
`os.Create`, or the `io.Copy` into the created file. -/
structure FsSched where
  createFails : Bool
  copyFails : Bool
deriving DecidableEq, Repr

/-- Model of `copyImg` (src/item/util/util.go lines 100-120): derive
the generated name from the timestamp `now` and the sanitized base of
the original name, create the file, copy the stream, and on a copy
error remove the partial file again.  Returns the generated name on
success and `none` on failure, with the resulting file set. -/
def copyImg (sc : FsSched) (now name : String) (files : List String) :
    Option String × List String :=
  let img := now ++ "_" ++ pathBase name
  let p := ImgPath img
  if sc.createFails then (none, files)
  else if sc.copyFails then (none, (p :: files).erase p)
  else (some img, p :: files)

/-- Database failures an operation can observe. -/
inductive DbErr where
  | writeFailed : DbErr
  | insertFailed : DbErr
  | beginFailed : DbErr
  | selectFailed : DbErr
  | deleteFailed : DbErr
  | updateFailed : DbErr
  | paramMismatch : DbErr
  | stmtInvalid : DbErr
deriving DecidableEq, Repr

/-- Failure schedule for `Add`: the filesystem steps of `copyImg`, and
an injected failure of the INSERT (standing for any execution failure,
e.g. a uniqueness violation or a lost connection; a duplicate name is
additionally modelled as a genuine constraint failure). -/
structure AddSched where
  fs : FsSched
  insertFails : Bool
deriving DecidableEq, Repr

/-- The id the store assigns to an inserted row (the source insert
omits the id column; the claims do not depend on the assigned value). -/
def freshId (rows : List Row) : Int :=
  (rows.map Row.id).foldl max 0 + 1

/-- Model of `Add` (src/item/util/util.go lines 122-155).  Arguments
`name`, `price`, `descr`, `imgArg` are the dereferenced fields of the
`*Item` argument; `imgArg = some orig` models a supplied image stream
with original filename `orig` (`it.Img.Reader != nil`).  If an image is
supplied, `copyImg` runs before the INSERT and a write failure aborts;
if the INSERT fails after a successful write, the written asset is
removed with `os.Remove` and the insert error is returned. -/
def Add (sc : AddSched) (now name : String) (price : Int)
    (descr imgArg : Option String) (st : State) : Except DbErr Unit × State :=
  match imgArg with
  | some origName =>
    match copyImg sc.fs now origName st.files with
    | (none, files1) => (.error .writeFailed, { st with files := files1 })
    | (some img, files1) =>
      if sc.insertFails || st.rows.any (fun r => r.name = name) then
        (.error .insertFailed, { rows := st.rows, files := files1.erase (ImgPath img) })
      else
        (.ok (), { rows := st.rows ++ [⟨freshId st.rows, name, descr, price, some img⟩],
                   files := files1 })
  | none =>
    if sc.insertFails || st.rows.any (fun r => r.name = name) then
      (.error .insertFailed, st)
    else
      (.ok (), { rows := st.rows ++ [⟨freshId st.rows, name, descr, price, none⟩],
                 files := st.files })

/-- Failure schedule for `Del`: `Begin`, the SELECT of image
references, the DELETE, and the final `Commit`. -/
structure DelSched where
  beginFails : Bool
  selectFails : Bool
  deleteFails : Bool
  commitFails : Bool
deriving DecidableEq, Repr

/-- Row predicate of the WHERE clause `Del` and `Get` build: one
`id = $n` clause per requested id and one `name = $n` clause per
requested name, joined with OR. -/
def rowMatch (ids : List Int) (names : List String) (r : Row) : Bool :=
  ids.any (fun i => i = r.id) || names.any (fun n => n = r.name)

/-- `os.Remove` of each collected path, in order (removal of a missing
path is a no-op; the source ignores the `os.Remove` result). -/
def removeFiles (files : List String) (ps : List String) : List String :=
  ps.foldl (fun acc p => acc.erase p) files

/-- Model of `Del` (src/item/util/util.go lines 157-208): return nil at
once when both key sets are empty; otherwise begin a transaction,
SELECT the img column of all matching rows, DELETE the matching rows,
commit, and remove the collected asset files.  Source line 201 discards
the value returned by `tx.Commit`, so the asset removal and the nil
return happen whether or not the commit succeeded; a failed commit only
rolls the row deletion back. -/
def Del (sc : DelSched) (ids : List Int) (names : List String) (st : State) :
    Except DbErr Unit × State :=
  if ids.isEmpty && names.isEmpty then (.ok (), st)
  else if sc.beginFails then (.error .beginFailed, st)
  else if sc.selectFails then (.error .selectFailed, st)
  else
    let touched := st.rows.filter (rowMatch ids names)
    let imgs := touched.filterMap (fun r => r.img.map ImgPath)
    if sc.deleteFails then (.error .deleteFailed, st)
    else
      let rows1 :=
        if sc.commitFails then st.rows
        else st.rows.filter (fun r => !(rowMatch ids names r))
      (.ok (), { rows := rows1, files := removeFiles st.files imgs })

/-- The `Item` argument of `Mod`: every field optional, `none` meaning
"leave unchanged".  For `img`, `some ""` is the explicit clear
(`-noimg`) and any other `some` value is a new image to write; for
`descr`, `some ""` is the explicit clear (stored as SQL NULL). -/
structure Item where
  id : Option Int := none
  name : Option String := none
  price : Option Int := none
  img : Option String := none
  descr : Option String := none
deriving DecidableEq, Repr

/-- Failure schedule for `Mod`: the filesystem steps of `copyImg`,
`Begin`, and the UPDATE (standing for any execution failure of that
statement).  The current-image SELECT needs no injected failure: as
built by the source it fails deterministically (see `modCore`).  The
source discards the `tx.Commit` result. -/
structure ModSched where
  fs : FsSched
  beginFails : Bool
  updateFails : Bool
  commitFails : Bool
deriving DecidableEq, Repr

/-- Number of `field = $n` items in the SET list `Mod` builds: one per
supplied optional field, in source order id, name, price, img, descr. -/
def setCount (it : Item) : Nat :=
  (if it.id.isSome then 1 else 0) + (if it.name.isSome then 1 else 0) +
  (if it.price.isSome then 1 else 0) + (if it.img.isSome then 1 else 0) +
  (if it.descr.isSome then 1 else 0)

/-- Row predicate of the WHERE clause `Mod` builds (source lines
260-266): by id when the parsed key is non-negative, else by name. -/
def whereMatch (id : Int) (name : String) (r : Row) : Bool :=
  if 0 ≤ id then r.id == id else r.name == name

/-- Effect of the UPDATE statement on one matching row; `newImg` is the
generated name of the freshly written asset, if one was written. -/
def applyMod (it : Item) (newImg : Option String) (r : Row) : Row :=
  { id := it.id.getD r.id
    name := it.name.getD r.name
    price := it.price.getD r.price
    img :=
      match it.img with
      | none => r.img
      | some s => if s = "" then none else newImg
    descr :=
      match it.descr with
      | none => r.descr
      | some s => if s = "" then none else some s }

/-- Model of `rmImg` (src/item/util/util.go lines 221-225): remove the
path held in `newImgPath` if it was set.  The source sets `newImgPath`
(line 247) from the still-empty old-image variable `img` rather than
from `newImg`, so in the new-image case it holds `ImgPath "" = "img/"`
and not the path of the freshly written asset. -/
def rmImg (newImgPath : String) (files : List String) : List String :=
  if newImgPath = "" then files else files.erase newImgPath

/-- The transactional tail of `Mod` (source lines 269-296): begin;
when the image field is changing, run the current-image SELECT of the
addressed row; execute the UPDATE built from the supplied fields (an
empty SET list is a SQL syntax error); commit, discarding the commit
error (line 290); finally remove the old asset when one was recorded.
The SELECT always fails: the WHERE text is built as
`id = $(len(set)+1)` (source line 261) for the UPDATE statement, and
whenever the image is changing the SET list is non-empty, so the
SELECT at line 276 reads `SELECT img FROM items WHERE id = $N` with
N ≥ 2 while binding a single argument — the statement is rejected
(undeterminable parameter $1 / argument-count mismatch), the error is
not `pgx.ErrNoRows`, and `Mod` returns it before the UPDATE ever runs.
Every error path runs `rmImg` except `Begin` failure, and the deferred
`tx.Rollback` undoes any uncommitted row change. -/
def modCore (sc : ModSched) (id : Int) (name : String) (it : Item) (st : State)
    (newImg : Option String) (newImgPath : String) : Except DbErr Unit × State :=
  if sc.beginFails then (.error .beginFailed, st)
  else
    let sel : Except DbErr String :=
      if it.img.isSome then .error .paramMismatch
      else .ok ""
    match sel with
    | .error e => (.error e, { st with files := rmImg newImgPath st.files })
    | .ok oldImg =>
      if setCount it = 0 then
        (.error .stmtInvalid, { st with files := rmImg newImgPath st.files })
      else if sc.updateFails then
        (.error .updateFailed, { st with files := rmImg newImgPath st.files })
      else
        let rows1 := st.rows.map (fun r => if whereMatch id name r then applyMod it newImg r else r)
        let rows2 := if sc.commitFails then st.rows else rows1
        (.ok (),
         { rows := rows2,
           files := if oldImg = "" then st.files else st.files.erase (ImgPath oldImg) })

/-- Model of `Mod` (src/item/util/util.go lines 210-297): the image
field is handled before the transaction — an explicit clear adds
`img = NULL` to the SET list with no asset write, a new value runs
`copyImg` first and aborts on a write failure — then `modCore` runs the
transaction. -/
def Mod (sc : ModSched) (now : String) (id : Int) (name : String) (it : Item)
    (st : State) : Except DbErr Unit × State :=
  match it.img with
  | none => modCore sc id name it st none ""
  | some s =>
    if s = "" then modCore sc id name it st none ""
    else
      match copyImg sc.fs now s st.files with
      | (none, files1) => (.error .writeFailed, { st with files := files1 })
      | (some newImg, files1) =>
        modCore sc id name it { st with files := files1 } (some newImg) (ImgPath "")

/-- An item as the storefront checkout loop consumes it: the id and the
price in minor units (`item.ID` and `item.Price.Num` of the handler
struct; the other fields do not enter the money path). -/
structure OrderItem where
  id : Int
  price : Int
deriving DecidableEq, Repr

/-- Conversion `getItems` performs from database rows to handler items
(src/unnamed/part_002 lines 381-406), restricted to the money path. -/
def rowsToItems (rows : List Row) : List OrderItem :=
  rows.map (fun r => ⟨r.id, r.price⟩)

/-- Lexicographic comparison of character lists by code point. -/
def charsLe : List Char → List Char → Bool
  | [], _ => true
  | _ :: _, [] => false
  | a :: as, b :: bs =>
    if a.toNat < b.toNat then true
    else if b.toNat < a.toNat then false
    else charsLe as bs

/-- Insert a row into a list sorted by name. -/
def insertByName (r : Row) : List Row → List Row
  | [] => [r]
  | x :: xs => if charsLe r.name.data x.name.data then r :: x :: xs else x :: insertByName r xs

/-- ORDER BY name, as a sort of the selected rows. -/
def sortByName (l : List Row) : List Row := l.foldr insertByName []

/-- Model of `Get` (src/item/util/util.go lines 306-354) as `getItems`
calls it: names empty, `ByName` ordering.  An empty id set selects the
whole table ("empty sets mean all"); otherwise the WHERE clause keeps
exactly the rows whose id occurs in the set. -/
def getMatching (rows : List Row) (ids : List Int) : List Row :=
  let sel := if ids.isEmpty then rows else rows.filter (fun r => ids.any (fun i => i = r.id))
  sortByName sel

/-- Replace the value at a key of an association-list map, or append
the binding, as a Go map assignment `ordered[id] = n` behaves. -/
def setAssoc (m : List (Int × Int)) (k v : Int) : List (Int × Int) :=
  if m.any (fun p => p.1 = k) then m.map (fun p => if p.1 = k then (k, v) else p)
  else m ++ [(k, v)]

/-- Go map read with a zero default: `ordered[p.ID]`. -/
def lookup0 (m : List (Int × Int)) (k : Int) : Int :=
  ((m.find? (fun p => p.1 = k)).map (fun p => p.2)).getD 0

/-- Model of the form-scanning loop of `handleRoot` (src/unnamed/
part_002 lines 535-560): the four contact fields are skipped; any other
key is parsed with `stoi` as an item id and its value as a quantity;
entries whose key fails to parse, or whose quantity fails to parse or
falls outside 1..100, are skipped without error; the rest are appended
to the id list and recorded in the quantity map. -/
def collectOrder (form : List (String × String)) : List Int × List (Int × Int) :=
  form.foldl
    (fun acc kv =>
      if kv.1 = "name" ∨ kv.1 = "contact" ∨ kv.1 = "address" ∨ kv.1 = "comments" then acc
      else
        match stoi kv.1 with
        | .error _ => acc
        | .ok id =>
          match stoi kv.2 with
          | .error _ => acc
          | .ok n => if n ≤ 0 ∨ 100 < n then acc else (acc.1 ++ [id], setAssoc acc.2 id n))
    ([], [])

/-- Model of the checkout aggregation loop of `handleRoot` (src/
unnamed/part_002 lines 575-584): per item, quantity is the map value
(zero when absent), the line total is price times quantity, and the
running total accumulates the lines; the delivery surcharge is added
once at the end.  Returns the line totals and the grand total. -/
def computeOrder (items : List OrderItem) (ordered : List (Int × Int))
    (delivery : Int) : List Int × Int :=
  let r := items.foldl
    (fun (acc : List Int × Int) it =>
      let n := lookup0 ordered it.id
      let t := it.price * n
      (acc.1 ++ [t], acc.2 + t))
    ([], 0)
  (r.1, r.2 + delivery)

/-- The composed storefront checkout path: scan the form, query the
selected catalog subset, aggregate with the delivery surcharge. -/
def checkout (rows : List Row) (form : List (String × String)) (delivery : Int) :
    List Int × Int :=
  let c := collectOrder form
  computeOrder (rowsToItems (getMatching rows c.1)) c.2 delivery

/-! Digit and `Atoi` infrastructure lemmas. -/

lemma isDigit_digitChar : ∀ k : Nat, k < 10 → isDigit (digitChar k) = true := by decide

lemma digitVal_digitChar : ∀ k : Nat, k < 10 → digitVal (digitChar k) = k := by decide

lemma digitChar_ge49 : ∀ k : Nat, k < 10 → 1 ≤ k → 49 ≤ (digitChar k).toNat := by decide

lemma digitChar_le57 : ∀ k : Nat, k < 10 → (digitChar k).toNat ≤ 57 := by decide

lemma ne_dot_of_isDigit {c : Char} (h : isDigit c = true) : c ≠ '.' := by
  intro he
  subst he
  exact absurd h (by decide)

lemma ne_minus_of_isDigit {c : Char} (h : isDigit c = true) : c ≠ '-' := by
  intro he
  subst he
  exact absurd h (by decide)

lemma ne_plus_of_isDigit {c : Char} (h : isDigit c = true) : c ≠ '+' := by
  intro he
  subst he
  exact absurd h (by decide)

lemma digits_foldl (xs : List Char) : ∀ a : Nat,
    xs.foldl (fun acc c => 10 * acc + digitVal c) a =
      a * 10 ^ xs.length + digitsToNat xs := by
  induction xs with
  | nil => intro a; simp [digitsToNat]
  | cons c t ih =>
    intro a
    have hc : digitsToNat (c :: t) = digitVal c * 10 ^ t.length + digitsToNat t := by
      show List.foldl _ (10 * 0 + digitVal c) t = _
      rw [ih (10 * 0 + digitVal c)]
      have hz : 10 * 0 + digitVal c = digitVal c := by omega
      rw [hz]
    simp only [List.foldl_cons]
    rw [ih (10 * a + digitVal c), hc]
    simp only [List.length_cons]
    ring

lemma digitsToNat_append (xs ys : List Char) :
    digitsToNat (xs ++ ys) = digitsToNat xs * 10 ^ ys.length + digitsToNat ys := by
  simp only [digitsToNat, List.foldl_append]
  rw [show ys.foldl (fun acc c => 10 * acc + digitVal c)
        (xs.foldl (fun acc c => 10 * acc + digitVal c) 0) =
      (xs.foldl (fun acc c => 10 * acc + digitVal c) 0) * 10 ^ ys.length +
        ys.foldl (fun acc c => 10 * acc + digitVal c) 0 from digits_foldl ys _]

lemma toDigitsRevAux_zero (f : Nat) : toDigitsRevAux f 0 = [] := by
  cases f <;> rfl

lemma toDigitsRevAux_fuel : ∀ f1 f2 n : Nat, n ≤ f1 → n ≤ f2 →
    toDigitsRevAux f1 n = toDigitsRevAux f2 n := by
  intro f1
  induction f1 with
  | zero =>
    intro f2 n h1 _
    have : n = 0 := Nat.le_zero.mp h1
    subst this
    rw [toDigitsRevAux_zero, toDigitsRevAux_zero]
  | succ k ih =>
    intro f2 n h1 h2
    cases n with
    | zero => rw [toDigitsRevAux_zero, toDigitsRevAux_zero]
    | succ m =>
      cases f2 with
      | zero => exact absurd h2 (by omega)
      | succ j =>
        show digitChar ((m + 1) % 10) :: toDigitsRevAux k ((m + 1) / 10) =
          digitChar ((m + 1) % 10) :: toDigitsRevAux j ((m + 1) / 10)
        have hd : (m + 1) / 10 < m + 1 := Nat.div_lt_self (Nat.succ_pos m) (by omega)
        rw [ih j ((m + 1) / 10) (by omega) (by omega)]

lemma toDigitsRev_succ {n : Nat} (h : n ≠ 0) :
    toDigitsRev n = digitChar (n % 10) :: toDigitsRev (n / 10) := by
  obtain ⟨m, rfl⟩ : ∃ m, n = m + 1 := ⟨n - 1, by omega⟩
  show toDigitsRevAux (m + 1) (m + 1) = _
  have hd : (m + 1) / 10 < m + 1 := Nat.div_lt_self (Nat.succ_pos m) (by omega)
  show digitChar ((m + 1) % 10) :: toDigitsRevAux m ((m + 1) / 10) = _
  rw [toDigitsRevAux_fuel m ((m + 1) / 10) ((m + 1) / 10) (by omega) (by omega)]
  rfl

lemma toDigitsRev_all (n : Nat) : (toDigitsRev n).all isDigit = true := by
  induction n using Nat.strong_induction_on with
  | _ n ih =>
    by_cases h : n = 0
    · subst h; rfl
    · rw [toDigitsRev_succ h]
      have hd : n / 10 < n := Nat.div_lt_self (Nat.pos_of_ne_zero h) (by omega)
      simp only [List.all_cons, Bool.and_eq_true]
      exact ⟨isDigit_digitChar (n % 10) (Nat.mod_lt n (by omega)), ih (n / 10) hd⟩

lemma toDigitsRev_toNat (n : Nat) : digitsToNat (toDigitsRev n).reverse = n := by
  induction n using Nat.strong_induction_on with
  | _ n ih =>
    by_cases h : n = 0
    · subst h; rfl
    · rw [toDigitsRev_succ h, List.reverse_cons, digitsToNat_append]
      have hd : n / 10 < n := Nat.div_lt_self (Nat.pos_of_ne_zero h) (by omega)
      rw [ih (n / 10) hd]
      have : digitsToNat [digitChar (n % 10)] = n % 10 := by
        simp [digitsToNat, digitVal_digitChar (n % 10) (Nat.mod_lt n (show 0 < 10 by omega))]
      rw [this]
      simp only [List.length_singleton, pow_one]
      omega

lemma toDigitsRev_length_le : ∀ k n : Nat, n < 10 ^ k → (toDigitsRev n).length ≤ k := by
  intro k
  induction k with
  | zero =>
    intro n h
    have : n = 0 := by simpa using h
    subst this
    simp [toDigitsRev, toDigitsRevAux_zero]
  | succ j ih =>
    intro n h
    by_cases h0 : n = 0
    · subst h0; simp [toDigitsRev, toDigitsRevAux_zero]
    · rw [toDigitsRev_succ h0]
      simp only [List.length_cons]
      have : n / 10 < 10 ^ j := by
        rw [Nat.div_lt_iff_lt_mul (by omega)]
        calc n < 10 ^ (j + 1) := h
        _ = 10 ^ j * 10 := by ring
      exact Nat.succ_le_succ (ih (n / 10) this)

lemma toDigitsRev_length_ge : ∀ k n : Nat, 10 ^ k ≤ n → k + 1 ≤ (toDigitsRev n).length := by
  intro k
  induction k with
  | zero =>
    intro n h
    have h0 : n ≠ 0 := by omega
    rw [toDigitsRev_succ h0]
    simp
  | succ j ih =>
    intro n h
    have h0 : n ≠ 0 := by
      have : 0 < 10 ^ (j + 1) := Nat.pos_pow_of_pos _ (by omega)
      omega
    rw [toDigitsRev_succ h0]
    simp only [List.length_cons]
    have : 10 ^ j ≤ n / 10 := by
      rw [Nat.le_div_iff_mul_le (by omega)]
      calc 10 ^ j * 10 = 10 ^ (j + 1) := by ring
      _ ≤ n := h
    exact Nat.succ_le_succ (ih (n / 10) this)

lemma toDigitsRev_head (n : Nat) (h : n ≠ 0) :
    ∃ c l, (toDigitsRev n).reverse = c :: l ∧ 49 ≤ c.toNat ∧ c.toNat ≤ 57 := by
  induction n using Nat.strong_induction_on with
  | _ n ih =>
    by_cases hq : n / 10 = 0
    · have hn : n < 10 := by omega
      rw [toDigitsRev_succ h, hq]
      have : toDigitsRev 0 = [] := rfl
      rw [this]
      refine ⟨digitChar (n % 10), [], by simp, ?_, ?_⟩
      · exact digitChar_ge49 (n % 10) (by omega) (by omega)
      · exact digitChar_le57 (n % 10) (by omega)
    · have hd : n / 10 < n := Nat.div_lt_self (Nat.pos_of_ne_zero h) (by omega)
      obtain ⟨c, l, hcl, hc1, hc2⟩ := ih (n / 10) hd hq
      rw [toDigitsRev_succ h, List.reverse_cons, hcl]
      exact ⟨c, l ++ [digitChar (n % 10)], by simp, hc1, hc2⟩

/-! Lemmas about `natDigits`, the digit string of `strconv.Itoa`. -/

lemma natDigits_all (n : Nat) : (natDigits n).all isDigit = true := by
  unfold natDigits
  split
  · decide
  · rw [List.all_eq_true] at *
    intro c hc
    have := toDigitsRev_all n
    rw [List.all_eq_true] at this
    exact this c (List.mem_reverse.mp hc)

lemma natDigits_toNat (n : Nat) : digitsToNat (natDigits n) = n := by
  unfold natDigits
  split
  · subst ‹n = 0›; decide
  · exact toDigitsRev_toNat n

lemma natDigits_lt10 {n : Nat} (h : n < 10) : natDigits n = [digitChar n] := by
  by_cases h0 : n = 0
  · subst h0; rfl
  · unfold natDigits
    rw [if_neg h0, toDigitsRev_succ h0]
    have hq : n / 10 = 0 := Nat.div_eq_of_lt h
    have hm : n % 10 = n := Nat.mod_eq_of_lt h
    rw [hq, hm]
    rfl

lemma natDigits_length_le {k n : Nat} (hk : 1 ≤ k) (h : n < 10 ^ k) :
    (natDigits n).length ≤ k := by
  unfold natDigits
  split
  · simpa using hk
  · rw [List.length_reverse]
    exact toDigitsRev_length_le k n h

lemma natDigits_length_ge {k n : Nat} (h : 10 ^ k ≤ n) :
    k + 1 ≤ (natDigits n).length := by
  unfold natDigits
  split
  · subst ‹n = 0›
    have : 0 < 10 ^ k := Nat.pos_pow_of_pos _ (by omega)
    omega
  · rw [List.length_reverse]
    exact toDigitsRev_length_ge k n h

lemma natDigits_head {n : Nat} (h : n ≠ 0) :
    ∃ c l, natDigits n = c :: l ∧ 49 ≤ c.toNat ∧ c.toNat ≤ 57 := by
  unfold natDigits
  rw [if_neg h]
  exact toDigitsRev_head n h

lemma natDigits_len2 {n : Nat} (h1 : 10 ≤ n) (h2 : n < 100) :
    ∃ d1 d2, natDigits n = [d1, d2] := by
  have hle : (natDigits n).length ≤ 2 := natDigits_length_le (by omega) (by norm_num; omega)
  have hge : 2 ≤ (natDigits n).length := by
    have := natDigits_length_ge (k := 1) (n := n) (by norm_num; omega)
    omega
  have : (natDigits n).length = 2 := by omega
  exact List.length_eq_two.mp this

/-! Lemmas about `splitAtDot`, the model of the price regexp grouping. -/

lemma splitAtDot_join : ∀ l : List Char, (splitAtDot l).1 ++ (splitAtDot l).2 = l := by
  intro l
  induction l with
  | nil => rfl
  | cons c rest ih =>
    unfold splitAtDot
    by_cases h : c = '.'
    · rw [if_pos h]
      rfl
    · rw [if_neg h]
      simpa using ih

lemma splitAtDot_split : ∀ a b : List Char, (∀ c ∈ a, c ≠ '.') →
    (b = [] ∨ ∃ t, b = '.' :: t) → splitAtDot (a ++ b) = (a, b) := by
  intro a
  induction a with
  | nil =>
    intro b _ hb
    rcases hb with rfl | ⟨t, rfl⟩
    · rfl
    · simp [splitAtDot]
  | cons c rest ih =>
    intro b ha hb
    have hc : c ≠ '.' := ha c (by simp)
    show splitAtDot (c :: (rest ++ b)) = _
    unfold splitAtDot
    rw [if_neg hc, ih b (fun x hx => ha x (by simp [hx])) hb]

lemma intPartOK_all {l : List Char} (h : intPartOK l = true) : l.all isDigit = true := by
  cases l with
  | nil => exact absurd h (by decide)
  | cons c rest =>
    unfold intPartOK at h
    rw [Bool.or_eq_true, Bool.and_eq_true, Bool.and_eq_true] at h
    rcases h with ⟨h1, h2⟩ | ⟨h1, h2⟩
    · rw [List.isEmpty_iff] at h2
      subst h2
      simpa using h1
    · rw [List.all_cons, Bool.and_eq_true]
      refine ⟨?_, h2⟩
      rw [Bool.and_eq_true, decide_eq_true_eq, decide_eq_true_eq] at h1
      simp only [isDigit, Bool.and_eq_true, decide_eq_true_eq]
      omega

lemma intPartOK_ne_dot {l : List Char} (h : intPartOK l = true) : ∀ c ∈ l, c ≠ '.' := by
  intro c hc
  have := intPartOK_all h
  rw [List.all_eq_true] at this
  exact ne_dot_of_isDigit (this c hc)

lemma fracOK_cases {l : List Char} (h : fracOK l = true) :
    l = [] ∨ (∃ d, l = ['.', d] ∧ isDigit d = true) ∨
      (∃ d1 d2, l = ['.', d1, d2] ∧ isDigit d1 = true ∧ isDigit d2 = true) := by
  cases l with
  | nil => exact Or.inl rfl
  | cons c ds =>
    unfold fracOK at h
    rw [Bool.and_eq_true, Bool.and_eq_true, beq_iff_eq] at h
    obtain ⟨⟨hc, hlen⟩, hdig⟩ := h
    subst hc
    rw [Bool.or_eq_true, beq_iff_eq, beq_iff_eq] at hlen
    rcases hlen with h1 | h2
    · obtain ⟨d, rfl⟩ := List.length_eq_one.mp h1
      exact Or.inr (Or.inl ⟨d, rfl, by simpa using hdig⟩)
    · obtain ⟨d1, d2, rfl⟩ := List.length_eq_two.mp h2
      rw [List.all_cons, List.all_cons, Bool.and_eq_true, Bool.and_eq_true] at hdig
      exact Or.inr (Or.inr ⟨d1, d2, rfl, hdig.1, hdig.2.1⟩)

/-! The behaviour of the modelled `Atoi` on plain digit strings. -/

lemma atoi_digits (l : List Char) (h0 : l ≠ []) (hd : l.all isDigit = true) :
    atoi ⟨l⟩ =
      if 2 ^ 63 - 1 < (digitsToNat l : Int) then .error .errRange
      else .ok (digitsToNat l) := by
  cases l with
  | nil => exact absurd rfl h0
  | cons c rest =>
    rw [List.all_cons, Bool.and_eq_true] at hd
    have hm : (c == '-') = false := by
      rw [beq_eq_false_iff_ne]
      exact ne_minus_of_isDigit hd.1
    have hp : (c == '+') = false := by
      rw [beq_eq_false_iff_ne]
      exact ne_plus_of_isDigit hd.1
    show atoi (String.mk (c :: rest)) = _
    unfold atoi
    simp only [hm, hp, Bool.or_false, Bool.false_or, if_false, Bool.false_eq_true]
    have hds : ((c :: rest).isEmpty || !(c :: rest).all isDigit) = false := by
      simp [List.all_cons, hd.1, hd.2]
    rw [hds]
    simp only [Bool.false_eq_true, if_false]
    have hnn : ¬((digitsToNat (c :: rest) : Int) < -(2 ^ 63)) := by
      have : (0 : Int) ≤ (digitsToNat (c :: rest) : Int) := Int.natCast_nonneg _
      omega
    by_cases hr : 2 ^ 63 - 1 < (digitsToNat (c :: rest) : Int)
    · rw [if_pos (Or.inr hr), if_pos hr]
    · rw [if_neg (by tauto), if_neg hr]

/-- Evaluation of `priceSet` on any input decomposed as a regexp match:
the result is the minor-unit count of the two groups, or the `Atoi`
range error when that count exceeds the signed 64-bit maximum. -/
lemma priceSet_decomp {s : String} {ip fr : List Char}
    (hs : s.data = ip ++ fr) (hip : intPartOK ip = true) (hfr : fracOK fr = true) :
    priceSet s =
      if 2 ^ 63 - 1 < ((digitsToNat ip * 100 + fracVal fr : Nat) : Int)
      then .error .range else .ok ((digitsToNat ip * 100 + fracVal fr : Nat) : Int) := by
  have hip0 : ip ≠ [] := by
    intro h
    subst h
    exact absurd hip (by decide)
  have hsplit : splitAtDot s.data = (ip, fr) := by
    rw [hs]
    refine splitAtDot_split ip fr (intPartOK_ne_dot hip) ?_
    rcases fracOK_cases hfr with rfl | ⟨d, rfl, _⟩ | ⟨d1, d2, rfl, _, _⟩
    · exact Or.inl rfl
    · exact Or.inr ⟨[d], rfl⟩
    · exact Or.inr ⟨[d1, d2], rfl⟩
  have hipd : ip.all isDigit = true := intPartOK_all hip
  rcases fracOK_cases hfr with rfl | ⟨d, rfl, hd⟩ | ⟨d1, d2, rfl, hd1, hd2⟩
  · have hall : (ip ++ ['0', '0']).all isDigit = true := by
      rw [List.all_append, hipd]
      decide
    have hv : digitsToNat (ip ++ ['0', '0']) = digitsToNat ip * 100 + fracVal [] := by
      rw [digitsToNat_append]
      norm_num [fracVal]
      decide
    simp only [priceSet, hsplit]
    rw [if_pos (by simp [hip, hfr])]
    simp only [List.replicate, List.nil_append]
    rw [atoi_digits (ip ++ ['0', '0']) (by simp [hip0]) hall, hv]
    by_cases hc : 2 ^ 63 - 1 < ((digitsToNat ip * 100 + fracVal [] : Nat) : Int)
    · rw [if_pos hc, if_pos hc]
    · rw [if_neg hc, if_neg hc]
  · have hall : (ip ++ [d, '0']).all isDigit = true := by
      rw [List.all_append, hipd]
      simp [hd]
      decide
    have hv : digitsToNat (ip ++ [d, '0']) = digitsToNat ip * 100 + fracVal ['.', d] := by
      rw [digitsToNat_append]
      have h1 : digitsToNat [d, '0'] = 10 * digitVal d := by
        simp [digitsToNat, digitVal]
      rw [h1]
      norm_num [fracVal]
    simp only [priceSet, hsplit]
    rw [if_pos (by simp [hip, hfr])]
    simp only [List.replicate, List.length_singleton]
    rw [show ([d] ++ ['0'] : List Char) = [d, '0'] from rfl]
    rw [atoi_digits (ip ++ [d, '0']) (by simp [hip0]) hall, hv]
    by_cases hc : 2 ^ 63 - 1 < ((digitsToNat ip * 100 + fracVal ['.', d] : Nat) : Int)
    · rw [if_pos hc, if_pos hc]
    · rw [if_neg hc, if_neg hc]
  · have hall : (ip ++ [d1, d2]).all isDigit = true := by
      rw [List.all_append, hipd]
      simp [hd1, hd2]
    have hv : digitsToNat (ip ++ [d1, d2]) = digitsToNat ip * 100 + fracVal ['.', d1, d2] := by
      rw [digitsToNat_append]
      have h1 : digitsToNat [d1, d2] = 10 * digitVal d1 + digitVal d2 := by
        simp [digitsToNat]
      rw [h1]
      norm_num [fracVal]
    simp only [priceSet, hsplit]
    rw [if_pos (by simp [hip, hfr])]
    simp only [List.replicate, List.length_cons, List.length_singleton, List.append_nil]
    rw [atoi_digits (ip ++ [d1, d2]) (by simp [hip0]) hall, hv]
    by_cases hc : 2 ^ 63 - 1 < ((digitsToNat ip * 100 + fracVal ['.', d1, d2] : Nat) : Int)
    · rw [if_pos hc, if_pos hc]
    · rw [if_neg hc, if_neg hc]

/-- Evaluation of `priceSet` when no decomposition matches the price
regexp: the literal "invalid price" error. -/
lemma priceSet_nomatch {s : String}
    (h : ∀ ip fr : List Char, s.data = ip ++ fr →
      ¬(intPartOK ip = true ∧ fracOK fr = true)) :
    priceSet s = .error .invalid := by
  simp only [priceSet]
  rw [if_neg]
  intro hc
  rw [Bool.and_eq_true] at hc
  exact h (splitAtDot s.data).1 (splitAtDot s.data).2 (splitAtDot_join s.data).symm hc

/-! Round-trip lemmas: parsing the rendering of a representable value. -/

lemma priceSet_priceDigits (n : Nat) (h : (n : Int) ≤ 2 ^ 63 - 1) :
    priceSet ⟨priceDigits n⟩ = .ok (n : Int) := by
  have hz : isDigit '0' = true := by decide
  by_cases h10 : n < 10
  · have hpd : priceDigits n = ['0', '.', '0', digitChar n] := by
      unfold priceDigits
      rw [natDigits_lt10 h10, if_pos h10]
    have hdec := @priceSet_decomp ⟨priceDigits n⟩ ['0'] ['.', '0', digitChar n]
      (by rw [show (⟨priceDigits n⟩ : String).data = priceDigits n from rfl, hpd]; rfl)
      (by decide)
      (by simp [fracOK, List.all_cons, isDigit_digitChar n h10, hz])
    have hval : digitsToNat ['0'] * 100 + fracVal ['.', '0', digitChar n] = n := by
      have e1 : digitsToNat ['0'] = 0 := by decide
      have e2 : digitVal '0' = 0 := by decide
      simp [fracVal, e1, e2, digitVal_digitChar n h10]
    rw [hval] at hdec
    rw [hdec, if_neg (by omega)]
  · by_cases h100 : n < 100
    · obtain ⟨d1, d2, hnd⟩ := natDigits_len2 (le_of_not_lt h10) h100
      have hall := natDigits_all n
      rw [hnd, List.all_cons, List.all_cons, Bool.and_eq_true, Bool.and_eq_true] at hall
      have hpd : priceDigits n = ['0', '.', d1, d2] := by
        simp only [priceDigits]
        rw [if_neg h10, if_pos h100, hnd]
      have hdec := @priceSet_decomp ⟨priceDigits n⟩ ['0'] ['.', d1, d2]
        (by rw [show (⟨priceDigits n⟩ : String).data = priceDigits n from rfl, hpd]; rfl)
        (by decide)
        (by simp [fracOK, List.all_cons, hall.1, hall.2.1])
      have hval : digitsToNat ['0'] * 100 + fracVal ['.', d1, d2] = n := by
        have e1 : digitsToNat ['0'] = 0 := by decide
        have e2 : digitsToNat [d1, d2] = 10 * digitVal d1 + digitVal d2 := by
          simp [digitsToNat]
        have e3 := natDigits_toNat n
        rw [hnd] at e3
        simp [fracVal, e1]
        omega
      rw [hval] at hdec
      rw [hdec, if_neg (by omega)]
    · have hn0 : n ≠ 0 := by omega
      have hlen3 : 3 ≤ (natDigits n).length := by
        have := natDigits_length_ge (k := 2) (n := n) (by norm_num; omega)
        omega
      have hall := natDigits_all n
      rw [List.all_eq_true] at hall
      obtain ⟨c, l, hcl, h49, h57⟩ := natDigits_head hn0
      obtain ⟨e1, e2, hb⟩ := List.length_eq_two.mp
        (show ((natDigits n).drop ((natDigits n).length - 2)).length = 2 by
          rw [List.length_drop]; omega)
      have hpd : priceDigits n =
          (natDigits n).take ((natDigits n).length - 2) ++
            '.' :: (natDigits n).drop ((natDigits n).length - 2) := by
        unfold priceDigits
        rw [if_neg h10, if_neg h100]
      have hip : intPartOK ((natDigits n).take ((natDigits n).length - 2)) = true := by
        obtain ⟨j, hj⟩ : ∃ j, (natDigits n).length - 2 = j + 1 :=
          ⟨(natDigits n).length - 3, by omega⟩
        rw [hj, hcl, List.take_succ_cons]
        have hcall : (List.take j l).all isDigit = true := by
          rw [List.all_eq_true]
          intro x hx
          exact hall x (by rw [hcl]; exact List.mem_cons_of_mem c (List.mem_of_mem_take hx))
        simp [intPartOK, hcall, h49, h57]
      have hfr : fracOK ('.' :: (natDigits n).drop ((natDigits n).length - 2)) = true := by
        rw [hb]
        have he1 : isDigit e1 = true :=
          hall e1 (List.mem_of_mem_drop (by rw [hb]; simp))
        have he2 : isDigit e2 = true :=
          hall e2 (List.mem_of_mem_drop (by rw [hb]; simp))
        simp [fracOK, List.all_cons, he1, he2]
      have hdec := @priceSet_decomp ⟨priceDigits n⟩
        ((natDigits n).take ((natDigits n).length - 2))
        ('.' :: (natDigits n).drop ((natDigits n).length - 2))
        (by rw [show (⟨priceDigits n⟩ : String).data = priceDigits n from rfl, hpd])
        hip hfr
      have hval : digitsToNat ((natDigits n).take ((natDigits n).length - 2)) * 100 +
          fracVal ('.' :: (natDigits n).drop ((natDigits n).length - 2)) = n := by
        have e3 : digitsToNat ((natDigits n).take ((natDigits n).length - 2) ++
            (natDigits n).drop ((natDigits n).length - 2)) = n := by
          rw [List.take_append_drop]
          exact natDigits_toNat n
        rw [hb] at e3
        rw [digitsToNat_append] at e3
        have e4 : digitsToNat [e1, e2] = 10 * digitVal e1 + digitVal e2 := by
          simp [digitsToNat]
        rw [hb]
        have e5 : fracVal ['.', e1, e2] = 10 * digitVal e1 + digitVal e2 := rfl
        rw [e5]
        norm_num at e3
        omega
      rw [hval] at hdec
      rw [hdec, if_neg (by omega)]

lemma priceSet_priceString_nonneg (p : Int) (h0 : 0 ≤ p) (h1 : p ≤ 2 ^ 63 - 1) :
    priceSet (priceString p) = .ok p := by
  obtain ⟨n, rfl⟩ := Int.eq_ofNat_of_zero_le h0
  unfold priceString
  rw [if_neg (by omega), Int.natAbs_ofNat]
  exact priceSet_priceDigits n h1

/-! Shape of the rendered price text. -/

lemma priceDigits_shape (n : Nat) :
    ∃ a b : List Char, priceDigits n = a ++ '.' :: b ∧ (∀ c ∈ a, c ≠ '.') ∧
      b.length = 2 ∧ b.all isDigit = true := by
  have hz : isDigit '0' = true := by decide
  by_cases h10 : n < 10
  · refine ⟨['0'], ['0', digitChar n], ?_, ?_, rfl, ?_⟩
    · simp only [priceDigits]
      rw [natDigits_lt10 h10, if_pos h10]
      rfl
    · intro c hc
      rw [List.mem_singleton] at hc
      subst hc
      decide
    · simp [List.all_cons, hz, isDigit_digitChar n h10]
  · by_cases h100 : n < 100
    · obtain ⟨d1, d2, hnd⟩ := natDigits_len2 (le_of_not_lt h10) h100
      have hall := natDigits_all n
      rw [hnd, List.all_cons, List.all_cons, Bool.and_eq_true, Bool.and_eq_true] at hall
      refine ⟨['0'], [d1, d2], ?_, ?_, rfl, ?_⟩
      · simp only [priceDigits]
        rw [if_neg h10, if_pos h100, hnd]
        rfl
      · intro c hc
        rw [List.mem_singleton] at hc
        subst hc
        decide
      · simp [List.all_cons, hall.1, hall.2.1]
    · have hn0 : n ≠ 0 := by omega
      have hlen3 : 3 ≤ (natDigits n).length := by
        have := natDigits_length_ge (k := 2) (n := n) (by norm_num; omega)
        omega
      have hall := natDigits_all n
      rw [List.all_eq_true] at hall
      refine ⟨(natDigits n).take ((natDigits n).length - 2),
        (natDigits n).drop ((natDigits n).length - 2), ?_, ?_, ?_, ?_⟩
      · simp only [priceDigits]
        rw [if_neg h10, if_neg h100]
      · intro c hc
        exact ne_dot_of_isDigit (hall c (List.mem_of_mem_take hc))
      · rw [List.length_drop]
        omega
      · rw [List.all_eq_true]
        intro c hc
        exact hall c (List.mem_of_mem_drop hc)

lemma count_dot_of_shape {x a b : List Char} (hx : x = a ++ '.' :: b)
    (ha : ∀ c ∈ a, c ≠ '.') (hb : b.all isDigit = true) :
    x.count '.' = 1 := by
  subst hx
  rw [List.count_append]
  have h1 : a.count '.' = 0 := List.count_eq_zero.mpr (fun hm => (ha '.' hm) rfl)
  have h2 : ('.' :: b).count '.' = b.count '.' + 1 := List.count_cons_self _ _
  have h3 : b.count '.' = 0 := List.count_eq_zero.mpr (fun hm =>
    absurd ((List.all_eq_true.mp hb) '.' hm) (by decide))
  rw [h1, h2, h3]

/-! Boolean membership bridge for the WHERE-clause predicate. -/

lemma any_eq_mem {α : Type} [DecidableEq α] (l : List α) (x : α) :
    l.any (fun i => i = x) = decide (x ∈ l) := by
  induction l with
  | nil => rfl
  | cons a t ih =>
    simp only [List.any_cons, ih]
    by_cases h : a = x
    · subst h
      simp
    · rw [decide_eq_false h, Bool.false_or]
      refine (decide_eq_decide.mpr ?_)
      rw [List.mem_cons]
      constructor
      · exact Or.inr
      · rintro (he | hm)
        · exact absurd he.symm h
        · exact hm

lemma rowMatch_eq (ids : List Int) (names : List String) (r : Row) :
    rowMatch ids names r = (decide (r.id ∈ ids) || decide (r.name ∈ names)) := by
  unfold rowMatch
  rw [any_eq_mem, any_eq_mem]

/-! Fold characterisation of the checkout accumulation loop. -/

lemma computeOrder_foldl (ordered : List (Int × Int)) (items : List OrderItem) :
    ∀ acc : List Int × Int,
      items.foldl
          (fun (acc : List Int × Int) it =>
            let n := lookup0 ordered it.id
            let t := it.price * n
            (acc.1 ++ [t], acc.2 + t)) acc =
        (acc.1 ++ items.map (fun it => it.price * lookup0 ordered it.id),
         acc.2 + (items.map (fun it => it.price * lookup0 ordered it.id)).sum) := by
  induction items with
  | nil =>
    intro acc
    simp
  | cons x xs ih =>
    intro acc
    simp only [List.foldl_cons, List.map_cons, List.sum_cons]
    rw [ih]
    simp [List.append_assoc, add_assoc]

/-! Claim theorems. -/

/-- C1: Create (`Add`) is atomic on error.  If the asset write fails,
the returned error is the write error and the state — rows and files —
is exactly the initial one, so no insert ran and no row was created;
if the write succeeds but the insert fails, the returned state again
equals the initial one: the just-written asset has been removed and no
row was created, so no orphaned asset survives a failed create. -/
theorem add_error_atomic (sc : AddSched) (now name : String) (price : Int)
    (descr : Option String) (orig : String) (st : State) :
    (sc.fs.createFails = true ∨ sc.fs.copyFails = true →
      Add sc now name price descr (some orig) st = (.error .writeFailed, st)) ∧
    (sc.fs.createFails = false → sc.fs.copyFails = false →
      (Add sc now name price descr (some orig) st).1 ≠ .ok () →
      Add sc now name price descr (some orig) st = (.error .insertFailed, st)) := by
  constructor
  · intro h
    unfold Add copyImg
    rcases h with h | h
    · rw [h]
      simp
    · cases hc : sc.fs.createFails
      · rw [h]
        simp [List.erase_cons_head]
      · simp
  · intro h1 h2 h3
    unfold Add copyImg at h3 ⊢
    rw [h1, h2] at h3 ⊢
    simp only [Bool.false_eq_true, if_false] at h3 ⊢
    cases hin : (sc.insertFails || st.rows.any (fun r => decide (r.name = name)))
    · rw [hin] at h3
      simp at h3
    · simp [List.erase_cons_head]

/-- C1 witness: concrete failing creates, with an image supplied, on an
empty store: a failed asset write and a failed insert both leave the
initial state untouched. -/
theorem add_error_atomic_witness :
    Add ⟨⟨true, false⟩, false⟩ "t" "a" 100 none (some "i.png") ⟨[], []⟩ =
        (.error .writeFailed, ⟨[], []⟩) ∧
      Add ⟨⟨false, false⟩, true⟩ "t" "a" 100 none (some "i.png") ⟨[], []⟩ =
        (.error .insertFailed, ⟨[], []⟩) :=
  ⟨(add_error_atomic ⟨⟨true, false⟩, false⟩ "t" "a" 100 none "i.png" ⟨[], []⟩).1
      (Or.inl rfl),
   (add_error_atomic ⟨⟨false, false⟩, true⟩ "t" "a" 100 none "i.png" ⟨[], []⟩).2
      rfl rfl (fun h => Except.noConfusion h)⟩

/-- C2: evaluation of `Del` at a concrete input whose commit fails.
The source discards the `tx.Commit` error (line 201), so the call
returns success and removes the collected asset even though the commit
failed and the row (still referencing the asset) survives — against the
claim that a failed commit removes no assets. -/
theorem del_commit_failure_still_removes_asset :
    Del ⟨false, false, false, true⟩ [1] []
        ⟨[⟨1, "a", none, 100, some "x.png"⟩], ["img/x.png"]⟩ =
      (.ok (), ⟨[⟨1, "a", none, 100, some "x.png"⟩], []⟩) := by rfl

/-- C3: evaluation of `Mod` at a concrete input with a new image, for
every behaviour of the UPDATE and commit steps.  The claimed scenario
— the update statement executing and failing — is unreachable: the
mis-numbered current-image SELECT always fails first, so whatever the
UPDATE or commit would have done, `Mod` returns the select error with
the rows unchanged and the old asset untouched, while the freshly
written asset "img/20250101_000000_new.png" is still on disk: the
cleanup uses `ImgPath(img)` with `img` still empty (source line 247),
removing "img/" instead of the new asset — against the claim that a
database failure after the asset write removes the newly-written
asset. -/
theorem mod_new_image_never_reaches_update :
    ∀ u c : Bool,
      Mod ⟨⟨false, false⟩, false, u, c⟩ "20250101_000000" 1 ""
          { img := some "new.png" }
          ⟨[⟨1, "pizza", none, 500, some "old.png"⟩], ["img/old.png"]⟩ =
        (.error .paramMismatch,
         ⟨[⟨1, "pizza", none, 500, some "old.png"⟩],
          ["img/20250101_000000_new.png", "img/old.png"]⟩) := by
  intro u c
  cases u <;> cases c <;> rfl

/-- C4 counterexample: `Mod` with every optional field omitted, on a
fault-free schedule, returns an error (the empty SET list makes the
UPDATE statement invalid), not the no-op success the claim states. -/
theorem mod_zero_fields_counterexample :
    Mod ⟨⟨false, false⟩, false, false, false⟩ "t" 1 "" {}
        ⟨[⟨1, "a", none, 100, none⟩], []⟩ =
      (.error .stmtInvalid, ⟨[⟨1, "a", none, 100, none⟩], []⟩) := by rfl

/-- C4 (amended): `Mod` with zero changed fields changes nothing but
returns an error — the SQL error of the empty-SET UPDATE it executes
(or the begin error if the transaction cannot start) — rather than
succeeding as a no-op. -/
theorem mod_zero_fields_errors (sc : ModSched) (now : String) (id : Int)
    (name : String) (st : State) :
    (Mod sc now id name {} st).2 = st ∧
      ∃ e, (Mod sc now id name {} st).1 = .error e := by
  unfold Mod modCore
  cases hb : sc.beginFails
  · simp [setCount, rmImg]
  · simp

/-- C5 counterexample: "92233720368547758.08" decomposes into an
integer part without leading zeros and a two-digit fraction — the exact
shape the claim says is accepted — yet `Set` fails, and with the
`strconv.Atoi` range error rather than the invalid-format error. -/
theorem price_set_range_counterexample :
    "92233720368547758.08".data = "92233720368547758".data ++ ".08".data ∧
    intPartOK "92233720368547758".data = true ∧
    fracOK ".08".data = true ∧
    priceSet "92233720368547758.08" = .error .range := ⟨rfl, rfl, rfl, rfl⟩

/-- C5 (amended): price parsing accepts exactly the strings of the
claimed shape whose minor-unit count also fits a signed 64-bit integer,
returning that count (a one-digit fraction right-padded with a zero);
a shape-valid string beyond the bound fails with the pass-through
`strconv.Atoi` range error, and every other input — empty text, more
than two fractional digits, a leading minus — fails invalid-format. -/
theorem price_set_shape_exact :
    (∀ (s : String) (ip fr : List Char), s.data = ip ++ fr →
        intPartOK ip = true → fracOK fr = true →
        digitsToNat ip * 100 + fracVal fr ≤ 2 ^ 63 - 1 →
        priceSet s = .ok ((digitsToNat ip * 100 + fracVal fr : Nat) : Int)) ∧
    (∀ (s : String) (ip fr : List Char), s.data = ip ++ fr →
        intPartOK ip = true → fracOK fr = true →
        2 ^ 63 - 1 < digitsToNat ip * 100 + fracVal fr →
        priceSet s = .error .range) ∧
    (∀ s : String, (∀ ip fr : List Char, s.data = ip ++ fr →
        ¬(intPartOK ip = true ∧ fracOK fr = true)) →
        priceSet s = .error .invalid) ∧
    priceSet "3.5" = .ok 350 ∧ priceSet "3" = .ok 300 ∧ priceSet "0.05" = .ok 5 ∧
    priceSet "3.555" = .error .invalid ∧ priceSet "-1" = .error .invalid ∧
    priceSet "" = .error .invalid := by
  refine ⟨?_, ?_, fun s h => priceSet_nomatch h, rfl, rfl, rfl, rfl, rfl, rfl⟩
  · intro s ip fr hs hip hfr hle
    rw [priceSet_decomp hs hip hfr, if_neg (by push_cast; omega)]
  · intro s ip fr hs hip hfr hgt
    rw [priceSet_decomp hs hip hfr, if_pos (by push_cast; omega)]

/-- C5 witness: the accepting clause applied at "3.5" with its regexp
decomposition, giving 350 minor units. -/
theorem price_set_shape_witness :
    priceSet "3.5" = .ok ((digitsToNat ['3'] * 100 + fracVal ['.', '5'] : Nat) : Int) :=
  price_set_shape_exact.1 "3.5" ['3'] ['.', '5'] rfl rfl rfl (by decide)

/-- C6: price round-trip and format shape.  Parsing the rendering of
any valid (non-negative, representable) price gives the price back;
every rendering splits as text-without-dot, one dot, then exactly two
fractional digits; 5 renders as "0.05" and 100 as "1.00"; a negative
value renders as a minus sign followed by the rendering of its
negation. -/
theorem price_roundtrip_format :
    (∀ p : Int, 0 ≤ p → p ≤ 2 ^ 63 - 1 → priceSet (priceString p) = .ok p) ∧
    (∀ p : Int, ∃ a b : List Char, (priceString p).data = a ++ '.' :: b ∧
        (∀ c ∈ a, c ≠ '.') ∧ b.length = 2 ∧ b.all isDigit = true ∧
        (priceString p).data.count '.' = 1) ∧
    priceString 5 = "0.05" ∧ priceString 100 = "1.00" ∧
    (∀ p : Int, p < 0 → priceString p = "-" ++ priceString (-p)) := by
  refine ⟨priceSet_priceString_nonneg, ?_, by decide, by decide, ?_⟩
  · intro p
    obtain ⟨a, b, hab, ha, hb2, hbd⟩ := priceDigits_shape p.natAbs
    by_cases hp : p < 0
    · have hd : (priceString p).data = '-' :: priceDigits p.natAbs := by
        unfold priceString
        rw [if_pos hp]
      have hsh : (priceString p).data = ('-' :: a) ++ '.' :: b := by
        rw [hd, hab]
        rfl
      refine ⟨'-' :: a, b, hsh, ?_, hb2, hbd, ?_⟩
      · intro c hc
        rcases List.mem_cons.mp hc with rfl | hc2
        · decide
        · exact ha c hc2
      · refine count_dot_of_shape hsh ?_ hbd
        intro c hc
        rcases List.mem_cons.mp hc with rfl | hc2
        · decide
        · exact ha c hc2
    · have hd : (priceString p).data = priceDigits p.natAbs := by
        unfold priceString
        rw [if_neg hp]
      have hsh : (priceString p).data = a ++ '.' :: b := by
        rw [hd, hab]
      exact ⟨a, b, hsh, ha, hb2, hbd, count_dot_of_shape hsh ha hbd⟩
  · intro p hp
    unfold priceString
    rw [if_pos hp, if_neg (by omega), Int.natAbs_neg]
    rfl

/-- C6 witness: the round-trip clause applied at 350, and the negative
rendering clause applied at -5. -/
theorem price_roundtrip_format_witness :
    priceSet (priceString 350) = .ok 350 ∧ priceString (-5) = "-" ++ priceString 5 := by
  constructor
  · exact price_roundtrip_format.1 350 (by norm_num) (by norm_num)
  · have h := price_roundtrip_format.2.2.2.2 (-5) (by norm_num)
    simpa using h

/-- C7: evaluation of the order pipeline at a concrete failing input.
The entries with quantity "0", quantity "150", and a non-numeric key
are excluded without error, and the unknown id 9 contributes nothing —
but the entry with the negative quantity "-5" is NOT excluded: the
unanchored second alternative of `^0|[1-9][0-9]*$` makes
`FindString("-5")` return "5", so item 1 is aggregated with quantity 5
(line 2500, total 3000) where the claim requires it to be dropped. -/
theorem order_negative_quantity_counted :
    stoi "-5" = .ok 5 ∧
    collectOrder [("1", "-5"), ("2", "0"), ("3", "150"), ("9", "2"), ("x", "2")] =
      ([1, 9], [(1, 5), (9, 2)]) ∧
    checkout
        [⟨1, "alpha", none, 500, none⟩, ⟨2, "beta", none, 1200, none⟩,
          ⟨3, "gamma", none, 700, none⟩]
        [("1", "-5"), ("2", "0"), ("3", "150"), ("9", "2"), ("x", "2")] 500 =
      ([2500], 3000) := ⟨rfl, rfl, rfl⟩

/-- C8: order aggregation totals.  On the claimed concrete input the
lines are [1000, 1200] and the total 2700; in general every line total
is price times the requested quantity, and the grand total is the sum
of the line totals plus the delivery surcharge. -/
theorem compute_order_totals :
    computeOrder [⟨1, 500⟩, ⟨2, 1200⟩] [(1, 2), (2, 1)] 500 = ([1000, 1200], 2700) ∧
    ∀ (items : List OrderItem) (ordered : List (Int × Int)) (delivery : Int),
      (computeOrder items ordered delivery).1 =
        items.map (fun it => it.price * lookup0 ordered it.id) ∧
      (computeOrder items ordered delivery).2 =
        ((computeOrder items ordered delivery).1).sum + delivery := by
  constructor
  · rfl
  · intro items ordered delivery
    unfold computeOrder
    rw [computeOrder_foldl]
    simp

/-- C9: deleting with any mix of matching and non-matching ids and
names, on a fault-free schedule, returns success — never a not-found
error — and removes exactly the matching rows (and their assets); keys
that match nothing are silently ignored. -/
theorem del_partial_match_succeeds (ids : List Int) (names : List String) (st : State) :
    Del ⟨false, false, false, false⟩ ids names st =
      (.ok (),
       { rows := st.rows.filter
           (fun r => !(decide (r.id ∈ ids) || decide (r.name ∈ names))),
         files := removeFiles st.files
           ((st.rows.filter
               (fun r => decide (r.id ∈ ids) || decide (r.name ∈ names))).filterMap
             (fun r => r.img.map ImgPath)) }) := by
  have hrm : ∀ r : Row,
      rowMatch ids names r = (decide (r.id ∈ ids) || decide (r.name ∈ names)) :=
    rowMatch_eq ids names
  unfold Del
  by_cases he : (ids.isEmpty && names.isEmpty) = true
  · rw [if_pos he]
    rw [Bool.and_eq_true, List.isEmpty_iff, List.isEmpty_iff] at he
    obtain ⟨rfl, rfl⟩ := he
    simp [removeFiles]
  · rw [if_neg he]
    have hrm2 : rowMatch ids names =
        fun r => (decide (r.id ∈ ids) || decide (r.name ∈ names)) :=
      funext (rowMatch_eq ids names)
    simp only [hrm2]
    simp

/-- C10: `Del` with both the id set and the name set empty returns
success at once and leaves the state — rows and files — completely
unchanged, for every failure schedule: no statement runs at all, and
the empty selection deletes nothing rather than everything. -/
theorem del_empty_selection_noop (sc : DelSched) (st : State) :
    Del sc [] [] st = (.ok (), st) := rfl

end GoBuffet
